import Mathlib

/-!
Shallow embedding of `magine/mappings/chemical_mapper.py` (class `ChemicalMapper`
and the module-level tables and helpers), together with theorems settling the
claims of the specification against it.

Python dictionaries (`dict` / `sortedcontainers.SortedDict`) are modelled as
association lists with unique keys; `SortedSet` values are modelled as
duplicate-free lists.  Sorted order is irrelevant to every claim (all are about
key sets and value sets), so insertion order is kept instead of sort order.
Fallible Python operations (subscript lookup that can raise `KeyError`,
unpickling that can fail) are modelled with `Except Unit`.
-/

namespace Magine

/-- Association-list lookup keyed by `String`; models Python `dict.get(k)`:
`none` when the key is absent. -/
def alistGet? {α : Type} : List (String × α) → String → Option α
  | [], _ => none
  | (a, b) :: rest, k => if a = k then some b else alistGet? rest k

/-- A mapping table as built by `ChemicalMapper._to_dict`: keys to
duplicate-free value collections (Python `SortedDict` of `SortedSet`s). -/
abbrev Dict := List (String × List String)

/-- Python membership test `k in d` on a mapping table: never raises. -/
def dictMem (d : Dict) (k : String) : Bool :=
  (alistGet? d k).isSome

/-- Python subscript retrieval `d[k]` on a mapping table: raises `KeyError`
(modelled as `Except.error ()`) when the key is absent. -/
def dictGetItem (d : Dict) (k : String) : Except Unit (List String) :=
  match alistGet? d k with
  | some vs => Except.ok vs
  | none => Except.error ()

/-- Value collection of a key, empty when absent (used to state grouping
correctness; `SortedSet` membership is list membership). -/
def dictValues (d : Dict) (k : String) : List String :=
  (alistGet? d k).getD []

/-- Adding one element to a `SortedSet` (`return_dict[i].add(j)`): a no-op when
the element is already present. -/
def setAdd (vs : List String) (v : String) : List String :=
  if v ∈ vs then vs else vs ++ [v]

/-- One insertion step of `_to_dict`'s loop body: `return_dict[i].add(j)` when
`i` is already a key, else `return_dict[i] = SortedSet([j])`. -/
def dictAdd (d : Dict) (k v : String) : Dict :=
  match d with
  | [] => [(k, [v])]
  | (a, b) :: rest => if a = k then (a, setAdd b v) :: rest else (a, b) :: dictAdd rest k v

/-- One iteration of `for i, j in d.values` in `_to_dict` after
`dropna(how='any')`: rows with a null key or null value are skipped. -/
def stepFn (d : Dict) (p : Option String × Option String) : Dict :=
  match p with
  | (some k, some v) => dictAdd d k v
  | _ => d

/-- The loop of `ChemicalMapper._to_dict` over the two selected columns. -/
def toDictL (rows : List (Option String × Option String)) : Dict :=
  rows.foldl stepFn []

/-- A row of the HMDB reference table (`hmdb_dataframe.csv.gz`) after the
`read_csv` converters ran: `synonyms` and `protein_associations` are split on
`'|'` into lists, scalar columns are `Option` (null becomes `None` through
`database.where(pd.notnull(...), None)`).  Columns of `valid_columns` that no
mapping table or claim reads are omitted. -/
structure Row where
  accession : Option String
  main_accession : Option String
  name : Option String
  kegg_id : Option String
  drugbank_id : Option String
  secondary_accessions : Option String
  synonyms : List String
  protein_associations : List String
  deriving DecidableEq, Repr

/-- `ChemicalMapper._to_dict(key, value)`: select the two columns, drop rows
where either is null, and group values per key into deduplicated sets. -/
def toDict (db : List Row) (key value : Row → Option String) : Dict :=
  toDictL (db.map (fun r => (key r, value r)))

/-- Python `str.lstrip(chars)`: removes the longest run of leading characters
that belong to the given character SET (not the literal string), e.g.
`"cpd:C00076".lstrip("cpd:") = "C00076"` but `"cpd:C00076".lstrip("cpd") =
":C00076"`. -/
def pyLstrip (chars s : String) : String :=
  String.mk (s.toList.dropWhile (fun c => c ∈ chars.toList))

/-- Python `str.startswith(p)` for a literal string `p`. -/
def pyStartswith (p s : String) : Bool :=
  p.toList.isPrefixOf s.toList

/-- Python `str.lower()`: lowercase character by character (the identifiers
and names at hand are ASCII). -/
def pyLower (s : String) : String := String.mk (s.toList.map Char.toLower)

/-- Insertion into a sorted list of strings. -/
def insertSorted (x : String) : List String → List String
  | [] => [x]
  | y :: ys => if x ≤ y then x :: y :: ys else y :: insertSorted x ys

/-- Python `sorted` on a collection of strings (insertion sort; only the
multiset of elements matters to the claims). -/
def sortStrs (l : List String) : List String := l.foldr insertSorted []

/-- Python `sorted(set(l))`: deduplicate, then sort. -/
def pySortedSet (l : List String) : List String := sortStrs l.dedup

/-- `ChemicalMapper._from_list_dict(key, value)`: pandas `groupby(key)` (null
keys dropped, keys sorted) of the list-valued column, the per-row lists
chained and collapsed with `sorted(set(...))`. -/
def fromListDict (db : List Row) (key : Row → Option String)
    (value : Row → List String) : Dict :=
  (sortStrs (db.filterMap key).dedup).map
    (fun k => (k, pySortedSet ((db.filter (fun r => key r == some k)).flatMap value)))

/-- Matching a regular-expression pattern against the start of a string, for
the pattern fragment made of literal characters and the metacharacter `'.'`
(which matches any character). -/
def reMatchHere : List Char → List Char → Bool
  | [], _ => true
  | _ :: _, [] => false
  | p :: ps, c :: cs => (p == '.' || p == c) && reMatchHere ps cs

/-- Python `re.search` over the same pattern fragment: the pattern matches at
some position of the string.  This is the semantics of pandas
`Series.str.contains(pat)` with its default `regex=True`, which
`check_synonym_dict` relies on; for patterns without metacharacters it
degenerates to substring containment. -/
def reSearch (pat : List Char) : List Char → Bool
  | [] => reMatchHere pat []
  | c :: cs => reMatchHere pat (c :: cs) || reSearch pat cs

/-- `ChemicalMapper.check_synonym_dict(term, format_name)`: join each row's
synonym list with `','`, lowercase it, keep rows whose joined synonyms match
the lowercased term under `str.contains` (regex search), and return
`sorted(set(...))` of the format-column values of those rows.  A null format
value among at least two distinct hits makes Python's `sorted` compare `None`
with `str` and raise `TypeError`; any null among the hits is conservatively
modelled as `Except.error ()` (the all-null corner would return `[None]`,
which carries no string result either). -/
def checkSynonymDict (db : List Row) (term : String) (fmt : Row → Option String) :
    Except Unit (List String) :=
  let hits := db.filter (fun r =>
    reSearch (pyLower term).toList (pyLower (String.intercalate "," r.synonyms)).toList)
  let vals := (hits.map fmt).dedup
  if vals.all Option.isSome then Except.ok (sortStrs (vals.filterMap id))
  else Except.error ()

/-- The fixed snapshot path `os.path.join(id_mapping_dir, 'hmdb_instance.p.gz')`. -/
def instanceFilename : String := "hmdb_instance.p.gz"

/-- The mapping tables and backing table held by a `ChemicalMapper` instance —
its `__dict__` (fields in `__init__` assignment order). -/
structure CMState where
  database : List Row
  hmdb_to_chem_name : Dict
  chem_name_to_hmdb : Dict
  hmdb_to_kegg : Dict
  kegg_to_hmdb : Dict
  synonyms_to_hmdb : Option Dict
  drugbank_to_hmdb : Dict
  hmdb_to_protein : Dict
  hmdb_main_to_protein : Dict
  instance_filename : String
  deriving DecidableEq

/-- `self.database['main_accession'] = self.database['accession']` in `load`. -/
def setMain (db : List Row) : List Row :=
  db.map (fun r => { r with main_accession := r.accession })

/-- One row produced by `tidy_split` on `secondary_accessions` followed by
`new_df['accession'] = new_df['secondary_accessions']`. -/
def splitRow (r : Row) (a : String) : Row :=
  { r with secondary_accessions := some a, accession := some a }

/-- The secondary-accessions expansion in `load`: rows selected by
`str.contains('|', na=False)` (under pandas' default regex semantics the
pattern `'|'` matches every non-null entry; nulls are excluded by `na=False`)
are split on `'|'` by `tidy_split` and concatenated onto the table, with
`accession` overwritten by each split value. -/
def expandSecondary (db : List Row) : List Row :=
  db ++ (db.filter (fun r => r.secondary_accessions.isSome)).flatMap
    (fun r => ((r.secondary_accessions.getD "").splitOn "|").map (splitRow r))

/-- The table-derivation part of `ChemicalMapper.load` applied to the parsed
reference table: set `main_accession`, expand secondary accessions, then build
every mapping table by grouping (`synonyms_to_hmdb` is set to `None`). -/
def buildTables (csv : List Row) : CMState :=
  let db := expandSecondary (setMain csv)
  { database := db
    hmdb_to_chem_name := toDict db (fun r => r.accession) (fun r => r.name)
    chem_name_to_hmdb := toDict db (fun r => r.name) (fun r => r.main_accession)
    hmdb_to_kegg := toDict db (fun r => r.accession) (fun r => r.kegg_id)
    kegg_to_hmdb := toDict db (fun r => r.kegg_id) (fun r => r.main_accession)
    synonyms_to_hmdb := none
    drugbank_to_hmdb := toDict db (fun r => r.drugbank_id) (fun r => r.main_accession)
    hmdb_to_protein := fromListDict db (fun r => r.accession) (fun r => r.protein_associations)
    hmdb_main_to_protein :=
      fromListDict db (fun r => r.main_accession) (fun r => r.protein_associations)
    instance_filename := instanceFilename }

/-- A pickled Python value occurring in `ChemicalMapper.__dict__`. -/
inductive PickleVal where
  | vdict : Dict → PickleVal
  | vtable : List Row → PickleVal
  | vstr : String → PickleVal
  | vnone : PickleVal
  deriving DecidableEq

/-- A pickled `__dict__`: attribute name to pickled value. -/
abbrev Snapshot := List (String × PickleVal)

/-- `pickle.dumps(self.__dict__)` in `save`. -/
def encodeState (st : CMState) : Snapshot :=
  [("database", PickleVal.vtable st.database),
   ("hmdb_to_chem_name", PickleVal.vdict st.hmdb_to_chem_name),
   ("chem_name_to_hmdb", PickleVal.vdict st.chem_name_to_hmdb),
   ("hmdb_to_kegg", PickleVal.vdict st.hmdb_to_kegg),
   ("kegg_to_hmdb", PickleVal.vdict st.kegg_to_hmdb),
   ("synonyms_to_hmdb",
     match st.synonyms_to_hmdb with
     | some d => PickleVal.vdict d
     | none => PickleVal.vnone),
   ("drugbank_to_hmdb", PickleVal.vdict st.drugbank_to_hmdb),
   ("hmdb_to_protein", PickleVal.vdict st.hmdb_to_protein),
   ("hmdb_main_to_protein", PickleVal.vdict st.hmdb_main_to_protein),
   ("_instance_filename", PickleVal.vstr st.instance_filename)]

/-- Reading one attribute of a pickled `__dict__`; absence is a failure. -/
def decodeField (s : Snapshot) (k : String) : Except Unit PickleVal :=
  match alistGet? s k with
  | some v => Except.ok v
  | none => Except.error ()

/-- Interpreting a pickled value as a reference table. -/
def asTable : PickleVal → Except Unit (List Row)
  | PickleVal.vtable t => Except.ok t
  | _ => Except.error ()

/-- Interpreting a pickled value as a mapping table. -/
def asDict : PickleVal → Except Unit Dict
  | PickleVal.vdict d => Except.ok d
  | _ => Except.error ()

/-- Interpreting a pickled value as an optional mapping table. -/
def asOptDict : PickleVal → Except Unit (Option Dict)
  | PickleVal.vdict d => Except.ok (some d)
  | PickleVal.vnone => Except.ok none
  | _ => Except.error ()

/-- Interpreting a pickled value as a string. -/
def asStr : PickleVal → Except Unit String
  | PickleVal.vstr s => Except.ok s
  | _ => Except.error ()

/-- `pickle.loads` of a snapshot back into a `__dict__`: any missing or
ill-typed attribute (an incompatible snapshot) is a deserialization failure. -/
def decodeState (s : Snapshot) : Except Unit CMState := do
  let db ← asTable (← decodeField s "database")
  let t1 ← asDict (← decodeField s "hmdb_to_chem_name")
  let t2 ← asDict (← decodeField s "chem_name_to_hmdb")
  let t3 ← asDict (← decodeField s "hmdb_to_kegg")
  let t4 ← asDict (← decodeField s "kegg_to_hmdb")
  let t5 ← asOptDict (← decodeField s "synonyms_to_hmdb")
  let t6 ← asDict (← decodeField s "drugbank_to_hmdb")
  let t7 ← asDict (← decodeField s "hmdb_to_protein")
  let t8 ← asDict (← decodeField s "hmdb_main_to_protein")
  let fn ← asStr (← decodeField s "_instance_filename")
  pure ⟨db, t1, t2, t3, t4, t5, t6, t7, t8, fn⟩

/-- The file-system state `ChemicalMapper` interacts with: the cached snapshot
at `hmdb_instance.p.gz` (`none` models an absent or unreadable file), the flat
reference file `hmdb_dataframe.csv.gz` parsed into rows (`none` = absent), and
the rows the external `HMDB()` download routine would write there. -/
structure Env where
  snapshot : Option Snapshot
  flatFile : Option (List Row)
  downloadContent : List Row
  deriving DecidableEq

/-- `ChemicalMapper.save`: write `pickle.dumps(self.__dict__)` to the snapshot
path, overwriting any prior snapshot. -/
def save (env : Env) (st : CMState) : Env :=
  { env with snapshot := some (encodeState st) }

/-- `ChemicalMapper.reload`: read the snapshot file and unpickle it into
`self.__dict__`.  An absent/unreadable file or a deserialization failure
(under both attempted text encodings) is an exception. -/
def reload (env : Env) : Except Unit CMState :=
  match env.snapshot with
  | some snap => decodeState snap
  | none => Except.error ()

/-- `ChemicalMapper.load`: if the flat reference file is absent, run the
external `HMDB()` download routine (which writes it); parse it, derive every
mapping table, and `save`.  Returns the updated file system, the new state,
and whether the download routine was triggered. -/
def load (env : Env) : Env × CMState × Bool :=
  match env.flatFile with
  | some csv => (save env (buildTables csv), buildTables csv, false)
  | none =>
      (save { env with flatFile := some env.downloadContent }
        (buildTables env.downloadContent),
       buildTables env.downloadContent, true)

/-- The construction logic of `ChemicalMapper.__init__`:
`try: self.reload() except: self.load()` — any snapshot-load failure is
swallowed by the bare `except` and triggers a full rebuild via `load`. -/
def initMapper (env : Env) : Env × CMState :=
  match reload env with
  | Except.ok st => (env, st)
  | Except.error _ => ((load env).1, (load env).2.1)

/-- The hardcoded module-level manual override table `compound_manual`. -/
def compound_manual : List (String × String) :=
  [("cpd:C07909", "HMDB15015"),
   ("cpd:C16844", "HMDB01039"),
   ("cpd:C00076", "HMDB00464"),
   ("cpd:C00154", "HMDB01338"),
   ("cpd:C01561", "HMDB03550"),
   ("cpd:C04043", "HMDB03791"),
   ("cpd:C01165", "HMDB02104"),
   ("cpd:C00025", "HMDB00148"),
   ("cpd:C00696", "HMDB01403"),
   ("cpd:C00124", "HMDB00143")]

/-- The hardcoded module-level table `common_names_not_in_hmdb`. -/
def common_names_not_in_hmdb : List (String × String) :=
  [("cpd:C00124", "D-Galactose")]

/-- Node attributes written by `convert_kegg_nodes` onto `network.node[i]`. -/
structure NodeAttrs where
  keggName : Option String
  hmdbNames : Option String
  chemName : Option String
  deriving DecidableEq

/-- Join of a Python set of strings with `'|'`; the unspecified set-iteration
order is modelled as first-occurrence order of the underlying collection (the
claims only exercise singleton sets, where no order is involved). -/
def joinSet (l : List String) : String :=
  String.intercalate "|" l.dedup

/-- Body of the first loop of `convert_kegg_nodes` for one node `i` of `hits`:
the attributes written to `network.node[i]`, the entry recorded in
`cpd_to_hmdb` (if any), and whether `i` is appended to `still_unknown`.  The
body treats each node independently, so the loop is expressed node-wise.  The
`isinstance(mapping, basestring)` branch is unreachable here: every value of a
table built by `_to_dict` is a `SortedSet`, taken by the `(list, SortedSet)`
branch. -/
def processNode (M : CMState) (i : String) : NodeAttrs × Option String × Bool :=
  let name_stripped := pyLstrip "cpd:" i
  match alistGet? M.kegg_to_hmdb name_stripped with
  | some mapping =>
      let names := joinSet mapping
      let chem_names :=
        (mapping.flatMap (fun n => (alistGet? M.hmdb_to_chem_name n).getD [])).dedup
      (⟨some name_stripped, some names, some (String.intercalate "|" chem_names)⟩,
       some names, false)
  | none =>
      match alistGet? compound_manual i with
      | some loc =>
          match alistGet? M.hmdb_to_chem_name loc with
          | some cns => (⟨some name_stripped, none, some (joinSet cns)⟩, none, false)
          | none =>
              match alistGet? common_names_not_in_hmdb i with
              | some cn => (⟨some name_stripped, none, some cn⟩, none, false)
              | none => (⟨some name_stripped, none, some name_stripped⟩, none, false)
      | none => (⟨some name_stripped, none, none⟩, none, true)

/-- The `hits` list of `convert_kegg_nodes`: node ids starting with `'cpd:'`
(the input list stands for `set(network.nodes())`). -/
def hitsOf (nodes : List String) : List String :=
  nodes.filter (fun i => pyStartswith "cpd:" i)

/-- The `still_unknown` list after the first loop. -/
def stillUnknown (M : CMState) (nodes : List String) : List String :=
  (hitsOf nodes).filter (fun i => (processNode M i).2.2)

/-- The `cpd_to_hmdb` dictionary after the first loop. -/
def tier1Cpd (M : CMState) (nodes : List String) : List (String × String) :=
  (hitsOf nodes).filterMap (fun i => ((processNode M i).2.1).map (fun v => (i, v)))

/-- The attribute writes performed by the first loop. -/
def tier1Attrs (M : CMState) (nodes : List String) : List (String × NodeAttrs) :=
  (hitsOf nodes).map (fun i => (i, (processNode M i).1))

/-- The remote-service loop of `convert_kegg_nodes` over `still_unknown`,
`kegg_hmdb` being the response of `chem.get_mapping("kegg_ligand", "hmdb")`.
The membership test uses the key `i.lstrip('cpd')` while the retrieval uses
the different key `i.lstrip('cpd:')`; retrieval of an absent key is a raised
`KeyError` (and `[0]` on an empty value list a raised `IndexError`), both
modelled as `Except.error ()`. -/
def remoteTier (kegg_hmdb : Dict) : List String → List (String × String) →
    Except Unit (List (String × String))
  | [], acc => Except.ok acc
  | i :: rest, acc =>
      if dictMem kegg_hmdb (pyLstrip "cpd" i) then
        match alistGet? kegg_hmdb (pyLstrip "cpd:" i) with
        | some (v :: _) => remoteTier kegg_hmdb rest (acc ++ [(i, v)])
        | some [] => Except.error ()
        | none => Except.error ()
      else remoteTier kegg_hmdb rest acc

/-- Result of `convert_kegg_nodes`: the node-attribute writes (mutations of
the input graph, all performed before the remote tier runs, hence applied even
when it raises) and the outcome — the returned `cpd_to_hmdb` dictionary
together with the flag telling whether the remote service was consulted, or a
raised exception. -/
structure ConvertResult where
  attrs : List (String × NodeAttrs)
  outcome : Except Unit (List (String × String) × Bool)

/-- `ChemicalMapper.convert_kegg_nodes(network)`, the remote response supplied
as a parameter: run the three-tier loop over the `'cpd:'` nodes; if
`still_unknown` is empty, return before any remote call; otherwise consult the
remote response for the residual identifiers. -/
def convertKeggNodes (M : CMState) (kegg_hmdb : Dict) (nodes : List String) :
    ConvertResult :=
  if (stillUnknown M nodes).isEmpty then
    ⟨tier1Attrs M nodes, Except.ok (tier1Cpd M nodes, false)⟩
  else
    match remoteTier kegg_hmdb (stillUnknown M nodes) (tier1Cpd M nodes) with
    | Except.ok cpd2 => ⟨tier1Attrs M nodes, Except.ok (cpd2, true)⟩
    | Except.error e => ⟨tier1Attrs M nodes, Except.error e⟩

/-- A small concrete reference table used to instantiate theorems. -/
def sampleDb : List Row :=
  [{ accession := some "HMDB00464", main_accession := none,
     name := some "Calcium", kegg_id := some "C00076", drugbank_id := none,
     secondary_accessions := none, synonyms := ["Calcium", "Ca"],
     protein_associations := ["P35523"] },
   { accession := some "HMDB0000933", main_accession := none,
     name := some "Laurene", kegg_id := none, drugbank_id := none,
     secondary_accessions := none, synonyms := ["Dodecene", "1-dodecene"],
     protein_associations := [] }]

/-- A file system with no cached snapshot and no flat reference file. -/
def sampleEnv : Env :=
  { snapshot := none, flatFile := none, downloadContent := sampleDb }

/-- The mapper state rebuilt from the sample table. -/
def sampleState : CMState := buildTables sampleDb

/-- Substring search — the relation the specification's synonym-search
sentence describes ("contains the term as a case-insensitive substring");
stated separately from the source-derived `reSearch` so the two can be
compared. -/
def substrSearch (pat : List Char) : List Char → Bool
  | [] => pat.isEmpty
  | c :: cs => pat.isPrefixOf (c :: cs) || substrSearch pat cs

/-- Case-insensitive substring containment of the term in the synonyms
field. -/
def substringMatch (term syn : String) : Bool :=
  substrSearch (pyLower term).toList (pyLower syn).toList

/-- A one-row reference table whose synonym field is `"abc"`: the term
`"a.c"` regex-matches it but is not a substring of it. -/
def synCexDb : List Row :=
  [{ accession := none, main_accession := none, name := some "R1",
     kegg_id := none, drugbank_id := none, secondary_accessions := none,
     synonyms := ["abc"], protein_associations := [] }]

/-! Lemmas about `_to_dict`. -/

theorem mem_setAdd (vs : List String) (v x : String) :
    x ∈ setAdd vs v ↔ x ∈ vs ∨ x = v := by
  unfold setAdd
  split
  · rename_i h
    constructor
    · exact Or.inl
    · rintro (hx | rfl)
      · exact hx
      · exact h
  · simp [List.mem_append]

theorem nodup_setAdd (vs : List String) (v : String) (h : vs.Nodup) :
    (setAdd vs v).Nodup := by
  unfold setAdd
  split
  · exact h
  · rename_i hv
    simp [List.nodup_append, h, hv]

theorem setAdd_ne_nil (vs : List String) (v : String) : setAdd vs v ≠ [] := by
  unfold setAdd
  split
  · rename_i h
    exact List.ne_nil_of_mem h
  · simp

theorem alistGet?_dictAdd (d : Dict) (k v k' : String) :
    alistGet? (dictAdd d k v) k' =
      if k' = k then some (setAdd (dictValues d k) v) else alistGet? d k' := by
  induction d with
  | nil =>
      by_cases h : k' = k
      · subst h
        simp [dictAdd, alistGet?, dictValues, setAdd]
      · simp [dictAdd, alistGet?, h, Ne.symm h]
  | cons p rest ih =>
      obtain ⟨a, b⟩ := p
      by_cases hak : a = k
      · subst hak
        by_cases hk' : k' = a
        · subst hk'
          simp [dictAdd, alistGet?, dictValues]
        · simp [dictAdd, alistGet?, hk', Ne.symm hk']
      · by_cases hk' : a = k'
        · subst hk'
          have hka : ¬a = k := hak
          simp [dictAdd, alistGet?, hak, Ne.symm hak]
        · simp [dictAdd, alistGet?, hak, hk', ih, dictValues]

theorem mem_dictValues_dictAdd (d : Dict) (k v k' x : String) :
    x ∈ dictValues (dictAdd d k v) k' ↔
      x ∈ dictValues d k' ∨ (k' = k ∧ x = v) := by
  by_cases h : k' = k
  · subst h
    simp [dictValues, alistGet?_dictAdd, mem_setAdd]
  · simp [dictValues, alistGet?_dictAdd, h]

theorem mem_dictValues_foldl (rows : List (Option String × Option String))
    (d : Dict) (k x : String) :
    x ∈ dictValues (rows.foldl stepFn d) k ↔
      x ∈ dictValues d k ∨ (some k, some x) ∈ rows := by
  induction rows generalizing d with
  | nil => simp
  | cons p rest ih =>
      obtain ⟨a, b⟩ := p
      match a, b with
      | none, _ =>
          simp only [List.foldl_cons, stepFn, ih, List.mem_cons]
          constructor
          · rintro (h | h)
            · exact Or.inl h
            · exact Or.inr (Or.inr h)
          · rintro (h | h | h)
            · exact Or.inl h
            · simp at h
            · exact Or.inr h
      | some a, none =>
          simp only [List.foldl_cons, stepFn, ih, List.mem_cons]
          constructor
          · rintro (h | h)
            · exact Or.inl h
            · exact Or.inr (Or.inr h)
          · rintro (h | h | h)
            · exact Or.inl h
            · simp at h
            · exact Or.inr h
      | some a, some b =>
          simp only [List.foldl_cons, stepFn, ih, mem_dictValues_dictAdd,
            List.mem_cons, Prod.mk.injEq, Option.some.injEq]
          tauto

theorem foldl_dict_invariant (rows : List (Option String × Option String))
    (d : Dict)
    (P : List String → Prop)
    (hstep : ∀ vs v, P vs → P (setAdd vs v))
    (hnew : ∀ v, P [v])
    (h : ∀ p ∈ d, P (Prod.snd p)) :
    ∀ p ∈ rows.foldl stepFn d, P (Prod.snd p) := by
  induction rows generalizing d with
  | nil => exact h
  | cons q rest ih =>
      obtain ⟨a, b⟩ := q
      match a, b with
      | none, _ => exact ih d h
      | some a, none => exact ih d h
      | some a, some b =>
          refine ih (dictAdd d a b) ?_
          clear ih
          induction d with
          | nil =>
              intro p hp
              simp [dictAdd] at hp
              subst hp
              exact hnew b
          | cons q rest ih2 =>
              obtain ⟨c, cv⟩ := q
              intro p hp
              unfold dictAdd at hp
              split at hp
              · rcases List.mem_cons.mp hp with h1 | h1
                · subst h1
                  exact hstep _ _ (h _ (List.mem_cons_self _ _))
                · exact h _ (List.mem_cons_of_mem _ h1)
              · rcases List.mem_cons.mp hp with h1 | h1
                · subst h1
                  exact h _ (List.mem_cons_self _ _)
                · exact ih2 (fun q hq => h _ (List.mem_cons_of_mem _ hq)) _ h1

theorem dictMem_dictAdd (d : Dict) (a b k : String) :
    dictMem (dictAdd d a b) k = (dictMem d k || decide (k = a)) := by
  unfold dictMem
  rw [alistGet?_dictAdd]
  by_cases h : k = a
  · simp [h]
  · simp [h]

theorem dictMem_foldl (rows : List (Option String × Option String))
    (d : Dict) (k : String) :
    dictMem (rows.foldl stepFn d) k = true →
      dictMem d k = true ∨ ∃ v, (some k, some v) ∈ rows := by
  induction rows generalizing d with
  | nil =>
      intro h
      exact Or.inl h
  | cons p rest ih =>
      obtain ⟨a, b⟩ := p
      match a, b with
      | none, b =>
          intro h
          rcases ih d h with h1 | ⟨v, hv⟩
          · exact Or.inl h1
          · exact Or.inr ⟨v, List.mem_cons_of_mem _ hv⟩
      | some a, none =>
          intro h
          rcases ih d h with h1 | ⟨v, hv⟩
          · exact Or.inl h1
          · exact Or.inr ⟨v, List.mem_cons_of_mem _ hv⟩
      | some a, some b =>
          intro h
          rcases ih (dictAdd d a b) h with h1 | ⟨v, hv⟩
          · rw [dictMem_dictAdd] at h1
            rcases Bool.or_eq_true_iff.mp h1 with h2 | h2
            · exact Or.inl h2
            · have hka : k = a := of_decide_eq_true h2
              subst hka
              exact Or.inr ⟨b, List.mem_cons_self _ _⟩
          · exact Or.inr ⟨v, List.mem_cons_of_mem _ hv⟩

/-! Lemmas about `convert_kegg_nodes`. -/

theorem alistGet?_ne_key {α : Type} (d : List (String × α)) (k : String)
    (h : ∀ p ∈ d, Prod.fst p ≠ k) : alistGet? d k = none := by
  induction d with
  | nil => rfl
  | cons p rest ih =>
      obtain ⟨a, b⟩ := p
      have ha : a ≠ k := h _ (List.mem_cons_self _ _)
      simp only [alistGet?, ha, if_false]
      exact ih (fun q hq => h _ (List.mem_cons_of_mem _ hq))

theorem alistGet?_map_self {α : Type} (l : List String) (f : String → α)
    (i : String) (h : i ∈ l) :
    alistGet? (l.map (fun j => (j, f j))) i = some (f i) := by
  induction l with
  | nil => simp at h
  | cons a rest ih =>
      by_cases hai : a = i
      · subst hai
        simp [alistGet?]
      · rcases List.mem_cons.mp h with h1 | h1
        · exact absurd h1.symm hai
        · simp [alistGet?, hai, ih h1]

theorem dedup_singleton (x : String) : [x].dedup = [x] := by
  rw [List.dedup_cons_of_not_mem (List.not_mem_nil x), List.dedup_nil]

theorem intercalate_singleton (x : String) : String.intercalate "|" [x] = x := by
  simp [String.intercalate, String.intercalate.go]

theorem joinSet_singleton (a : String) : joinSet [a] = a := by
  unfold joinSet
  rw [dedup_singleton]
  exact intercalate_singleton a

theorem remoteTier_congr (r r' : Dict) (l : List String)
    (h : ∀ i ∈ l, dictMem r (pyLstrip "cpd" i) = dictMem r' (pyLstrip "cpd" i) ∧
      alistGet? r (pyLstrip "cpd:" i) = alistGet? r' (pyLstrip "cpd:" i)) :
    ∀ acc, remoteTier r l acc = remoteTier r' l acc := by
  induction l with
  | nil =>
      intro acc
      rfl
  | cons i rest ih =>
      intro acc
      have hi := h i (List.mem_cons_self _ _)
      have hrest := ih (fun j hj => h j (List.mem_cons_of_mem _ hj))
      unfold remoteTier
      rw [← hi.1, ← hi.2]
      split
      · cases alistGet? r (pyLstrip "cpd:" i) with
        | none => rfl
        | some vs =>
            cases vs with
            | nil => rfl
            | cons v t => exact hrest _
      · exact hrest acc

theorem remoteTier_all_miss (r : Dict) (l : List String)
    (h : ∀ i ∈ l, dictMem r (pyLstrip "cpd" i) = false) :
    ∀ acc, remoteTier r l acc = Except.ok acc := by
  induction l with
  | nil =>
      intro acc
      rfl
  | cons i rest ih =>
      intro acc
      unfold remoteTier
      rw [h i (List.mem_cons_self _ _)]
      simp only [Bool.false_eq_true, if_false]
      exact ih (fun j hj => h j (List.mem_cons_of_mem _ hj)) acc

theorem remoteTier_keys (r : Dict) (i : String) :
    ∀ (l : List String) (acc out : List (String × String)),
      (∀ j ∈ l, j = i → dictMem r (pyLstrip "cpd" j) = false) →
      remoteTier r l acc = Except.ok out →
      (∀ p ∈ acc, Prod.fst p ≠ i) → ∀ p ∈ out, Prod.fst p ≠ i := by
  intro l
  induction l with
  | nil =>
      intro acc out _ hok hacc
      injection hok with hout
      subst hout
      exact hacc
  | cons j rest ih =>
      intro acc out hl hok hacc
      unfold remoteTier at hok
      split at hok
      · rename_i hmem
        cases hget : alistGet? r (pyLstrip "cpd:" j) with
        | none =>
            rw [hget] at hok
            exact absurd hok (by simp)
        | some vs =>
            rw [hget] at hok
            cases vs with
            | nil => exact absurd hok (by simp)
            | cons v t =>
                refine ih (acc ++ [(j, v)]) out
                  (fun q hq hqi => hl q (List.mem_cons_of_mem _ hq) hqi) hok ?_
                intro p hp
                rcases List.mem_append.mp hp with h1 | h1
                · exact hacc p h1
                · have : p = (j, v) := by
                    simpa using h1
                  subst this
                  intro hji
                  have := hl j (List.mem_cons_self _ _) hji
                  rw [this] at hmem
                  exact absurd hmem (by simp)
      · exact ih acc out (fun q hq hqi => hl q (List.mem_cons_of_mem _ hq) hqi) hok hacc

theorem tier1Cpd_keys (M : CMState) (nodes : List String) (i : String)
    (h : (processNode M i).2.1 = none) :
    ∀ p ∈ tier1Cpd M nodes, Prod.fst p ≠ i := by
  intro p hp
  rcases List.mem_filterMap.mp hp with ⟨j, hj, hfj⟩
  cases hpj : (processNode M j).2.1 with
  | none =>
      rw [hpj] at hfj
      simp at hfj
  | some v =>
      rw [hpj] at hfj
      simp at hfj
      subst hfj
      intro hji
      have hji2 : j = i := hji
      subst hji2
      rw [h] at hpj
      exact absurd hpj (by simp)

theorem convert_attrs_eq (M : CMState) (r : Dict) (nodes : List String) :
    (convertKeggNodes M r nodes).attrs = tier1Attrs M nodes := by
  unfold convertKeggNodes
  split
  · rfl
  · cases remoteTier r (stillUnknown M nodes) (tier1Cpd M nodes) <;> rfl

/-! Claim theorems. -/

/-- C1: Grouping correctness of `_to_dict(key, value)`: a value `v` belongs to
the mapping-table entry of a key `k` exactly when some reference-table row has
`key = k` and `value = v` (both non-null); every entry's value collection is
deduplicated; and every key of the mapping table corresponds to at least one
reference-table row with that (non-null) key and a non-null value. -/
theorem to_dict_grouping (db : List Row) (key value : Row → Option String)
    (k v : String) :
    (v ∈ dictValues (toDict db key value) k ↔
      ∃ r ∈ db, key r = some k ∧ value r = some v)
    ∧ (∀ p ∈ toDict db key value, (Prod.snd p).Nodup)
    ∧ (dictMem (toDict db key value) k = true →
        ∃ r ∈ db, ∃ v', key r = some k ∧ value r = some v') := by
  refine ⟨?_, ?_, ?_⟩
  · rw [toDict, toDictL, mem_dictValues_foldl]
    simp [dictValues, alistGet?, List.mem_map, Prod.mk.injEq]
  · rw [toDict, toDictL]
    refine foldl_dict_invariant _ [] List.Nodup ?_ ?_ ?_
    · exact fun vs v h => nodup_setAdd vs v h
    · intro v
      simp
    · intro p hp
      simp at hp
  · intro hmem
    rw [toDict, toDictL] at hmem
    rcases dictMem_foldl _ [] k hmem with h1 | ⟨v', hv'⟩
    · simp [dictMem, alistGet?] at h1
    · rcases List.mem_map.mp hv' with ⟨r, hr, heq⟩
      rw [Prod.mk.injEq] at heq
      exact ⟨r, hr, v', heq.1, heq.2⟩

/-- Witness for C1 on the sample table: `"Calcium"` is grouped under the key
`"HMDB00464"`, and that key of the mapping table is backed by a row. -/
theorem to_dict_grouping_witness :
    "Calcium" ∈ dictValues (toDict sampleDb (fun r => r.accession)
      (fun r => r.name)) "HMDB00464" ∧
    ∃ r ∈ sampleDb, ∃ v', r.accession = some "HMDB00464" ∧
      r.name = some v' := by
  have h := to_dict_grouping sampleDb (fun r => r.accession) (fun r => r.name)
    "HMDB00464" "Calcium"
  exact ⟨h.1.mpr (by decide), h.2.2 rfl⟩

/-- C2: Construction fallback: when `reload` fails (for any reason — absent,
unreadable or undecodable snapshot), `__init__` swallows the failure and falls
back to a full rebuild through `load`, which itself triggers the external
`HMDB()` download routine exactly when the flat reference file is absent; the
failure never propagates to the caller (`initMapper` returns `load`'s result,
not an exception). -/
theorem init_fallback (env : Env) (h : reload env = Except.error ()) :
    initMapper env = ((load env).1, (load env).2.1) ∧
    (env.flatFile = none → (load env).2.2 = true) := by
  constructor
  · unfold initMapper
    rw [h]
  · intro hff
    unfold load
    rw [hff]

/-- Witness for C2 at a concrete file system with no snapshot and no flat
reference file: `initMapper` rebuilds via `load`, and the download routine is
triggered. -/
theorem init_fallback_witness :
    initMapper sampleEnv = ((load sampleEnv).1, (load sampleEnv).2.1) ∧
    (load sampleEnv).2.2 = true :=
  ⟨(init_fallback sampleEnv rfl).1, (init_fallback sampleEnv rfl).2 rfl⟩

/-- C3 counterexample: the claim "retrieval by a missing key returns an
explicit empty/missing indicator rather than raising" is false as stated: the
mapping tables are plain `SortedDict`s, whose subscript retrieval `d[k]`
raises `KeyError` on a missing key.  Concretely, `"C99999"` is not a key of
the `kegg_to_hmdb` table built from the sample reference table, and subscript
retrieval of it raises. -/
theorem missing_key_raises_cex :
    dictMem sampleState.kegg_to_hmdb "C99999" = false ∧
    dictGetItem sampleState.kegg_to_hmdb "C99999" = Except.error () :=
  ⟨rfl, rfl⟩

/-- C3 (amended): for every mapping table and key not present in it, the
membership test `k in d` — the retrieval guard the code itself uses — returns
`False` without raising, `dict.get`-style retrieval returns the explicit miss
`None` without fabricating a default, while subscript retrieval `d[k]` raises
`KeyError`. -/
theorem missing_key_lookup (d : Dict) (k : String) (h : dictMem d k = false) :
    dictGetItem d k = Except.error () ∧ alistGet? d k = none := by
  unfold dictMem at h
  cases hg : alistGet? d k with
  | none => simp [dictGetItem, hg]
  | some vs =>
      rw [hg] at h
      simp at h

/-- Witness for the amended C3 on the sample `kegg_to_hmdb` table and the
absent key `"C77777"`. -/
theorem missing_key_lookup_witness :
    dictGetItem sampleState.kegg_to_hmdb "C77777" = Except.error () ∧
    alistGet? sampleState.kegg_to_hmdb "C77777" = none :=
  missing_key_lookup sampleState.kegg_to_hmdb "C77777" rfl

/-- C4: Remote-tier minimality: `convert_kegg_nodes` consults the remote
response only at the residual `still_unknown` identifiers — two remote
responses agreeing on the keys derived from those identifiers yield identical
results — and when every `'cpd:'` node is resolved by an earlier tier
(`still_unknown` empty) the function returns the tier-1 dictionary with the
remote-called flag `false`, i.e. without any remote call. -/
theorem convert_remote_minimal (M : CMState) (nodes : List String)
    (r r' : Dict)
    (hagree : ∀ i ∈ stillUnknown M nodes,
      dictMem r (pyLstrip "cpd" i) = dictMem r' (pyLstrip "cpd" i) ∧
      alistGet? r (pyLstrip "cpd:" i) = alistGet? r' (pyLstrip "cpd:" i)) :
    convertKeggNodes M r nodes = convertKeggNodes M r' nodes ∧
    (stillUnknown M nodes = [] →
      convertKeggNodes M r nodes =
        ⟨tier1Attrs M nodes, Except.ok (tier1Cpd M nodes, false)⟩) := by
  constructor
  · unfold convertKeggNodes
    rw [remoteTier_congr r r' (stillUnknown M nodes) hagree (tier1Cpd M nodes)]
  · intro hempty
    unfold convertKeggNodes
    rw [hempty]
    rfl

/-- Witness for C4: with the sample tables and nodes `["cpd:C00076",
"K00001"]` every cpd node is resolved offline, so two entirely different
remote responses give the same result and no remote call is made. -/
theorem convert_remote_minimal_witness :
    convertKeggNodes sampleState [("X", ["Y"])] ["cpd:C00076", "K00001"] =
      convertKeggNodes sampleState [] ["cpd:C00076", "K00001"] ∧
    convertKeggNodes sampleState [("X", ["Y"])] ["cpd:C00076", "K00001"] =
      ⟨tier1Attrs sampleState ["cpd:C00076", "K00001"],
       Except.ok (tier1Cpd sampleState ["cpd:C00076", "K00001"], false)⟩ := by
  have hsu : stillUnknown sampleState ["cpd:C00076", "K00001"] = [] := rfl
  have hagree : ∀ i ∈ stillUnknown sampleState ["cpd:C00076", "K00001"],
      dictMem [("X", ["Y"])] (pyLstrip "cpd" i) = dictMem [] (pyLstrip "cpd" i) ∧
      alistGet? [("X", ["Y"])] (pyLstrip "cpd:" i) =
        alistGet? ([] : Dict) (pyLstrip "cpd:" i) := by
    rw [hsu]
    intro i hi
    exact absurd hi (List.not_mem_nil i)
  exact ⟨(convert_remote_minimal sampleState ["cpd:C00076", "K00001"]
      [("X", ["Y"])] [] hagree).1,
    (convert_remote_minimal sampleState ["cpd:C00076", "K00001"]
      [("X", ["Y"])] [] hagree).2 hsu⟩

/-- C5: Annotation display-name correctness: a `'cpd:'` node whose stripped
identifier maps through `kegg_to_hmdb` to exactly one accession `a`, where `a`
has exactly one display name `x` in `hmdb_to_chem_name`, gets
`network.node[i]['chemName'] = x` (together with `keggName` and `hmdbNames`). -/
theorem convert_chem_name (M : CMState) (r : Dict) (nodes : List String)
    (i a x : String)
    (hi : i ∈ nodes) (hpre : pyStartswith "cpd:" i = true)
    (hk : alistGet? M.kegg_to_hmdb (pyLstrip "cpd:" i) = some [a])
    (hc : alistGet? M.hmdb_to_chem_name a = some [x]) :
    alistGet? (convertKeggNodes M r nodes).attrs i =
      some ⟨some (pyLstrip "cpd:" i), some a, some x⟩ := by
  rw [convert_attrs_eq]
  have hhit : i ∈ hitsOf nodes := List.mem_filter.mpr ⟨hi, hpre⟩
  unfold tier1Attrs
  rw [alistGet?_map_self _ _ _ hhit]
  have hproc : processNode M i =
      (⟨some (pyLstrip "cpd:" i), some a, some x⟩, some a, false) := by
    simp [processNode, hk, hc, joinSet_singleton, dedup_singleton,
      intercalate_singleton]
  rw [hproc]

/-- Witness for C5 on the sample tables: node `"cpd:C00076"` maps to the
single accession `"HMDB00464"`, whose single display name is `"Calcium"`. -/
theorem convert_chem_name_witness :
    alistGet? (convertKeggNodes sampleState [] ["cpd:C00076"]).attrs
      "cpd:C00076" = some ⟨some (pyLstrip "cpd:" "cpd:C00076"),
        some "HMDB00464", some "Calcium"⟩ :=
  convert_chem_name sampleState [] ["cpd:C00076"] "cpd:C00076" "HMDB00464"
    "Calcium" (by decide) rfl rfl rfl

/-- C6: Unresolved nodes are non-fatal: a `'cpd:'` node resolved by none of
the offline table, the manual override table and the remote response keeps its
entry among the attribute writes with no `chemName` (so it stays in the graph,
merely unannotated with a chemical name), is absent from the returned
dictionary, and — when the remote response resolves no residual node — the
function still returns normally. -/
theorem convert_unresolved (M : CMState) (r : Dict) (nodes : List String)
    (i : String)
    (hi : i ∈ nodes) (hpre : pyStartswith "cpd:" i = true)
    (hk : alistGet? M.kegg_to_hmdb (pyLstrip "cpd:" i) = none)
    (hm : alistGet? compound_manual i = none)
    (hr : dictMem r (pyLstrip "cpd" i) = false) :
    alistGet? (convertKeggNodes M r nodes).attrs i =
      some ⟨some (pyLstrip "cpd:" i), none, none⟩ ∧
    (∀ cpd b, (convertKeggNodes M r nodes).outcome = Except.ok (cpd, b) →
      alistGet? cpd i = none) ∧
    ((∀ j ∈ stillUnknown M nodes, dictMem r (pyLstrip "cpd" j) = false) →
      (convertKeggNodes M r nodes).outcome =
        Except.ok (tier1Cpd M nodes, true)) := by
  have hhit : i ∈ hitsOf nodes := List.mem_filter.mpr ⟨hi, hpre⟩
  have hproc : processNode M i = (⟨some (pyLstrip "cpd:" i), none, none⟩,
      none, true) := by
    simp [processNode, hk, hm]
  have hcpdnone : (processNode M i).2.1 = none := by
    rw [hproc]
  have hkeys := tier1Cpd_keys M nodes i hcpdnone
  have hiunk : i ∈ stillUnknown M nodes := by
    unfold stillUnknown
    refine List.mem_filter.mpr ⟨hhit, ?_⟩
    rw [hproc]
  refine ⟨?_, ?_, ?_⟩
  · rw [convert_attrs_eq]
    unfold tier1Attrs
    rw [alistGet?_map_self _ _ _ hhit, hproc]
  · intro cpd b heq
    unfold convertKeggNodes at heq
    split at heq
    · simp only [Except.ok.injEq, Prod.mk.injEq] at heq
      rw [← heq.1]
      exact alistGet?_ne_key _ _ hkeys
    · cases hrt : remoteTier r (stillUnknown M nodes) (tier1Cpd M nodes) with
      | error e =>
          rw [hrt] at heq
          simp at heq
      | ok cpd2 =>
          rw [hrt] at heq
          simp only [Except.ok.injEq, Prod.mk.injEq] at heq
          rw [← heq.1]
          refine alistGet?_ne_key _ _ ?_
          refine remoteTier_keys r i (stillUnknown M nodes)
            (tier1Cpd M nodes) cpd2 ?_ hrt hkeys
          intro j hj hji
          subst hji
          exact hr
  · intro hall
    unfold convertKeggNodes
    split
    · rename_i hempty
      rw [List.isEmpty_iff] at hempty
      rw [hempty] at hiunk
      exact absurd hiunk (List.not_mem_nil i)
    · rw [remoteTier_all_miss r (stillUnknown M nodes) hall (tier1Cpd M nodes)]

/-- Witness for C6 on the sample tables: node `"cpd:C99999"` is unknown to
the offline table, the manual table, and an empty remote response. -/
theorem convert_unresolved_witness :
    alistGet? (convertKeggNodes sampleState [] ["cpd:C99999"]).attrs
      "cpd:C99999" = some ⟨some (pyLstrip "cpd:" "cpd:C99999"), none, none⟩ ∧
    (∀ cpd b, (convertKeggNodes sampleState [] ["cpd:C99999"]).outcome =
      Except.ok (cpd, b) → alistGet? cpd "cpd:C99999" = none) ∧
    (convertKeggNodes sampleState [] ["cpd:C99999"]).outcome =
      Except.ok (tier1Cpd sampleState ["cpd:C99999"], true) := by
  have h := convert_unresolved sampleState [] ["cpd:C99999"] "cpd:C99999"
    (by decide) rfl rfl rfl rfl
  exact ⟨h.1, h.2.1, h.2.2 (fun j hj => rfl)⟩

/-- C7: Snapshot round-trip: for every mapping-cache state, `save` followed by
`reload` reproduces the state exactly — in particular every mapping table
comes back with the same key set and, for each key, the same value
collection. -/
theorem save_reload_roundtrip (env : Env) (st : CMState) :
    reload (save env st) = Except.ok st := by
  obtain ⟨db, t1, t2, t3, t4, t5, t6, t7, t8, fn⟩ := st
  cases t5 <;> rfl

/-- C8: Rebuild idempotence: running the rebuild-and-save path (`load`, which
ends by calling `save`) twice on an unchanged reference table writes a second
snapshot identical to the first, so the states reloaded from the two snapshots
are lookup-equivalent (indeed equal). -/
theorem load_twice_idempotent (env : Env) :
    ((load ((load env).1)).1).snapshot = ((load env).1).snapshot ∧
    reload ((load ((load env).1)).1) = reload ((load env).1) := by
  obtain ⟨snap, ff, dl⟩ := env
  cases ff <;> exact ⟨rfl, rfl⟩

theorem insertSorted_perm (x : String) (l : List String) :
    (insertSorted x l).Perm (x :: l) := by
  induction l with
  | nil => exact List.Perm.refl _
  | cons y ys ih =>
      unfold insertSorted
      split
      · exact List.Perm.refl _
      · exact List.Perm.trans (List.Perm.cons y ih) (List.Perm.swap x y ys)

theorem sortStrs_perm (l : List String) : (sortStrs l).Perm l := by
  induction l with
  | nil => exact List.Perm.refl _
  | cons x xs ih =>
      exact List.Perm.trans (insertSorted_perm x (sortStrs xs))
        (List.Perm.cons x ih)

/-- C9 counterexample: `check_synonym_dict` does not implement
case-insensitive substring search: pandas `str.contains` treats the term as a
regular expression, so the term `"a.c"` matches the synonym field `"abc"`
(the dot is a wildcard) and the row's value is returned, although `"a.c"` is
not a substring of `"abc"`. -/
theorem check_synonym_substring_cex :
    checkSynonymDict synCexDb "a.c" (fun r => r.name) = Except.ok ["R1"] ∧
    (∀ r ∈ synCexDb,
      substringMatch "a.c" (String.intercalate "," r.synonyms) = false) :=
  ⟨rfl, by decide⟩

/-- C9 (amended): for every term in the modelled regex fragment and a format
column with no null entries among the rows, `check_synonym_dict` never raises
and returns exactly the deduplicated (sorted) set of format-column values of
the rows whose lowercased comma-joined synonyms field matches the lowercased
term as a regular-expression search — which is case-insensitive substring
containment whenever the term has no regex metacharacters, e.g. `'dodecene'`
matches `'Dodecene'` and `'1-dodecene'`. -/
theorem check_synonym_regex (db : List Row) (term : String)
    (fmt : Row → Option String)
    (hfmt : ∀ r ∈ db, (fmt r).isSome = true) :
    ∃ l, checkSynonymDict db term fmt = Except.ok l ∧
      l.Nodup ∧
      ∀ v, v ∈ l ↔ ∃ r ∈ db,
        reSearch (pyLower term).toList
          (pyLower (String.intercalate "," r.synonyms)).toList = true ∧
        fmt r = some v := by
  have hcond : (((db.filter (fun r =>
      reSearch (pyLower term).toList
        (pyLower (String.intercalate "," r.synonyms)).toList)).map fmt).dedup).all
      Option.isSome = true := by
    rw [List.all_eq_true]
    intro x hx
    rw [List.mem_dedup] at hx
    rcases List.mem_map.mp hx with ⟨r, hr, hfr⟩
    subst hfr
    exact hfmt r (List.mem_filter.mp hr).1
  have hres : checkSynonymDict db term fmt = Except.ok (sortStrs
      ((((db.filter (fun r => reSearch (pyLower term).toList
        (pyLower (String.intercalate "," r.synonyms)).toList)).map
          fmt).dedup).filterMap id)) := by
    simp only [checkSynonymDict]
    rw [hcond]
    rfl
  refine ⟨_, hres, ?_, ?_⟩
  · refine ((sortStrs_perm _).nodup_iff).mpr ?_
    refine List.Nodup.filterMap ?_ (List.nodup_dedup _)
    intro a a' b hb hb'
    rw [Option.mem_def] at hb hb'
    simp only [id] at hb hb'
    rw [hb, hb']
  · intro v
    rw [(sortStrs_perm _).mem_iff]
    simp only [List.mem_filterMap, List.mem_dedup, List.mem_map,
      List.mem_filter, id]
    constructor
    · rintro ⟨a, ⟨r, ⟨hr, hmatch⟩, hfr⟩, hav⟩
      exact ⟨r, hr, hmatch, by rw [hfr, hav]⟩
    · rintro ⟨r, hr, hmatch, hfv⟩
      exact ⟨some v, ⟨r, ⟨hr, hmatch⟩, hfv⟩, rfl⟩

/-- Witness for the amended C9 on the sample table: searching `'dodecene'`
over the accession column returns a duplicate-free list characterised by the
regex (here: substring) match — the row with synonyms `'Dodecene'` and
`'1-dodecene'`. -/
theorem check_synonym_regex_witness :
    ∃ l, checkSynonymDict sampleDb "dodecene" (fun r => r.accession) =
      Except.ok l ∧
      l.Nodup ∧
      ∀ v, v ∈ l ↔ ∃ r ∈ sampleDb,
        reSearch (pyLower "dodecene").toList
          (pyLower (String.intercalate "," r.synonyms)).toList = true ∧
        r.accession = some v :=
  check_synonym_regex sampleDb "dodecene" (fun r => r.accession) (by decide)

/-- C10: Remote-tier key mismatch: for every identifier `'cpd:C' ++ digits`,
`i.lstrip('cpd')` removes only characters of the set `{c, p, d}` and keeps the
leading `':'`, while `i.lstrip('cpd:')` also removes it; the two keys are
never equal, so a remote response whose keys are bare compound identifiers
(no leading `':'`) never satisfies the membership test (the node is silently
dropped), while a response that does contain the colon-prefixed key makes the
subsequent retrieval under the other key raise `KeyError`. -/
theorem remote_key_mismatch (ds : List Char) (remote : Dict)
    (acc : List (String × String)) :
    pyLstrip "cpd" (String.mk ('c' :: 'p' :: 'd' :: ':' :: 'C' :: ds)) =
      String.mk (':' :: 'C' :: ds) ∧
    pyLstrip "cpd:" (String.mk ('c' :: 'p' :: 'd' :: ':' :: 'C' :: ds)) =
      String.mk ('C' :: ds) ∧
    String.mk (':' :: 'C' :: ds) ≠ String.mk ('C' :: ds) ∧
    ((∀ p ∈ remote, (Prod.fst p).toList.head? ≠ some ':') →
      dictMem remote (String.mk (':' :: 'C' :: ds)) = false) ∧
    (dictMem remote (String.mk (':' :: 'C' :: ds)) = false →
      remoteTier remote [String.mk ('c' :: 'p' :: 'd' :: ':' :: 'C' :: ds)] acc =
        Except.ok acc) ∧
    (dictMem remote (String.mk (':' :: 'C' :: ds)) = true →
      alistGet? remote (String.mk ('C' :: ds)) = none →
      remoteTier remote [String.mk ('c' :: 'p' :: 'd' :: ':' :: 'C' :: ds)] acc =
        Except.error ()) := by
  have hA : pyLstrip "cpd" (String.mk ('c' :: 'p' :: 'd' :: ':' :: 'C' :: ds)) =
      String.mk (':' :: 'C' :: ds) := rfl
  have hB : pyLstrip "cpd:" (String.mk ('c' :: 'p' :: 'd' :: ':' :: 'C' :: ds)) =
      String.mk ('C' :: ds) := rfl
  refine ⟨hA, hB, ?_, ?_, ?_, ?_⟩
  · intro h
    have hd := congrArg String.data h
    injection hd with hc ht
    exact absurd hc (by decide)
  · intro hbare
    unfold dictMem
    rw [alistGet?_ne_key remote _ ?_]
    · rfl
    · intro p hp hpk
      have : (Prod.fst p).toList.head? = some ':' := by
        rw [hpk]
        rfl
      exact absurd this (hbare p hp)
  · intro hmem
    refine remoteTier_all_miss remote _ ?_ acc
    intro j hj
    rw [List.mem_singleton] at hj
    subst hj
    rw [hA]
    exact hmem
  · intro hmem hget
    unfold remoteTier
    rw [hA, hmem, hB, hget]
    rfl

/-- Witness for C10 at `"cpd:C00025"`: a remote response keyed by the bare
identifier `"C00025"` is never looked at (the node stays unresolved), whereas
a response keyed by the colon-retaining form `":C00025"` passes the
membership test and then raises on retrieval. -/
theorem remote_key_mismatch_witness :
    pyLstrip "cpd" "cpd:C00025" = ":C00025" ∧
    pyLstrip "cpd:" "cpd:C00025" = "C00025" ∧
    (":C00025" : String) ≠ "C00025" ∧
    remoteTier [("C00025", ["HMDB00148"])] ["cpd:C00025"] [] =
      Except.ok [] ∧
    remoteTier [(":C00025", ["HMDB00148"])] ["cpd:C00025"] [] =
      Except.error () := by
  have h1 := remote_key_mismatch ['0', '0', '0', '2', '5']
    [(":C00025", ["HMDB00148"])] []
  have h2 := remote_key_mismatch ['0', '0', '0', '2', '5']
    [("C00025", ["HMDB00148"])] []
  exact ⟨h1.1, h1.2.1, h1.2.2.1, h2.2.2.2.2.1 rfl, h1.2.2.2.2.2 rfl rfl⟩

end Magine
